import Mathlib

set_option maxRecDepth 20000
set_option exponentiation.threshold 2000

/-!
# Verification of `idle-timeout` (gavlooth/idle-timeout)

A shallow embedding of the Go program in `src/main.go` (the current, PTY-based
implementation described by the README and the specification; the unnamed file
`src/unnamed/part_000` is an earlier revision of the same program superseded by
`main.go`).

The embedding covers:

* the exit-code resolution at the end of `run` (`src/main.go:177-192`),
* the child argv construction `exec.Command(cmdName, cmdArgs...)` (`src/main.go:65`),
* the output-pump loop and the activity clock (`src/main.go:121-129, 164-175`),
* one tick of the inactivity monitor (`src/main.go:140-162`),
* `parseDuration` (`src/main.go:29-34`) together with integer-exact models of the
  Go standard-library collaborators it calls, `strconv.ParseFloat` and
  `time.ParseDuration`.

Durations (`time.Duration`) are 64-bit signed counts of nanoseconds; they are
modelled as `Int`.  Floating-point computations are modelled by exact integer
arithmetic wherever the IEEE-754 computation is provably exact; outside that
zone the model returns an explicit "value not determined by the model" marker
rather than guessing a rounded value.
-/

namespace IdleTimeout

/-! ## Exit-code resolution (`src/main.go:177-192`)

After the output pump ends, `run` executes
```
err = cmd.Wait()
close(done)
if timedOut { return 124 }
if err != nil {
    if exitErr, ok := err.(*exec.ExitError); ok { return exitErr.ExitCode() }
    return 1
}
return 0
```
`cmd.Wait` is modelled by its three observable outcomes. -/

/-- Outcome of `cmd.Wait()` in `run` (`src/main.go:178`):
* `ok` — `Wait` returned a nil error (the child exited cleanly with status 0);
* `exitError code` — `Wait` returned an `*exec.ExitError`; `code` is
  `exitErr.ExitCode()` (the child's numeric exit code, which is `-1` when the
  child was terminated by a signal);
* `otherError` — `Wait` failed with any error that is not an `*exec.ExitError`
  (the child's status could not be determined). -/
inductive WaitResult : Type
| ok : WaitResult
| exitError (code : Int) : WaitResult
| otherError : WaitResult
deriving DecidableEq

/-- The tail of `run` (`src/main.go:181-192`): computes the int returned by
`run` from the `timedOut` flag set by the activity monitor and the result of
`cmd.Wait()`.  The `timedOut` test comes first, before any inspection of the
wait error. -/
def resolveExitCode (timedOut : Bool) (w : WaitResult) : Int :=
  if timedOut then 124
  else
    match w with
    | .ok => 0
    | .exitError code => code
    | .otherError => 1

/-! ## Child argv construction (`src/main.go:65`)

`run` starts the child with `cmd := exec.Command(cmdName, cmdArgs...)`.
`os/exec.Command` stores the argument vector as
`Args: append([]string{name}, arg...)` — the name followed by each argument as
its own discrete string.  No concatenation or shell splitting happens. -/

/-- The command object built by `exec.Command(cmdName, cmdArgs...)`
(`src/main.go:65`): `argv` is the argument vector handed to the execution
layer, one list element per argument. -/
structure ExecCmd : Type where
  name : String
  argv : List String

/-- `exec.Command(cmdName, cmdArgs...)` as called at `src/main.go:65`. -/
def execCommand (cmdName : String) (cmdArgs : List String) : ExecCmd :=
  ⟨cmdName, cmdName :: cmdArgs⟩

/-! ## Output pump and activity clock (`src/main.go:121-129, 164-175`)

```
var mu sync.Mutex
lastActivity := time.Now()
resetTimer := func() { mu.Lock(); lastActivity = time.Now(); mu.Unlock() }
...
buf := make([]byte, 4096)
for {
    n, err := ptmx.Read(buf)
    if n > 0 {
        resetTimer()
        os.Stdout.Write(buf[:n])
    }
    if err != nil { break }
}
```
A run of the loop is modelled by the list of results that successive
`ptmx.Read(buf)` calls return.  A read result is the chunk `buf[:n]` of bytes
delivered (`n > 0` exactly when the chunk is nonempty) together with whether
`err != nil` (end of stream or I/O error).  The mutex makes each
`lastActivity` update atomic with respect to the monitor; the trace below is
the sequence of actions the pump itself performs, in program order. -/

/-- One result of `ptmx.Read(buf)` (`src/main.go:167`): the bytes delivered
and whether the read also reported an error (`io.EOF` or any I/O error). -/
structure ReadEvent : Type where
  chunk : List UInt8
  isErr : Bool
deriving DecidableEq

/-- An observable action of the output pump: an activity-clock update
(`resetTimer()`, `src/main.go:125-129`) or a write of a chunk to the real
standard output (`os.Stdout.Write(buf[:n])`, `src/main.go:170`). -/
inductive PumpAction : Type
| resetClock : PumpAction
| write (bytes : List UInt8) : PumpAction
deriving DecidableEq

/-- The output-pump loop (`src/main.go:166-175`), as the list of actions it
performs on a given sequence of read results: for each read, if at least one
byte was delivered it first resets the activity clock and then writes exactly
those bytes; it leaves the loop after handling the first read whose error is
set. -/
def outputPump : List ReadEvent → List PumpAction
  | [] => []
  | ev :: rest =>
    let step := if ev.chunk.isEmpty then [] else [PumpAction.resetClock, PumpAction.write ev.chunk]
    if ev.isErr then step else step ++ outputPump rest

/-- The prefix of the read results the pump actually processes: everything up
to and including the first result whose error flag is set. -/
def takeThroughErr {α : Type} (err : α → Bool) : List α → List α
  | [] => []
  | x :: xs => if err x then [x] else x :: takeThroughErr err xs

/-- The bytes a list of pump actions sends to standard output, in order. -/
def writtenBytes : List PumpAction → List UInt8
  | [] => []
  | PumpAction.resetClock :: rest => writtenBytes rest
  | PumpAction.write bs :: rest => bs ++ writtenBytes rest

/-- The per-read actions the specification of the pump prescribes: nothing for
an empty read, clock update followed by the verbatim write for a nonempty
read. -/
def pumpStep (ev : ReadEvent) : List PumpAction :=
  if ev.chunk.isEmpty then [] else [PumpAction.resetClock, PumpAction.write ev.chunk]

/-! ### Activity clock timestamps (`src/main.go:121-129, 166-171`)

To state the clock invariant the wall clock is made explicit: each loop
iteration is paired with the value `time.Now()` returns at that iteration (the
timestamp `resetTimer` would store).  Timestamps are integers (nanoseconds);
Go's monotonic clock makes the sequence of `time.Now()` readings
non-decreasing.  `lastActivity` is initialised to `time.Now()` at
`src/main.go:123`; the only writer afterwards is `resetTimer`, called at
`src/main.go:169` exactly when a read delivered at least one byte. -/

/-- The successive values of `lastActivity` after each processed loop
iteration, starting from the initial value `t0` (`src/main.go:123`): a
nonempty read at wall-clock time `now` stores `now` (`resetTimer`,
`src/main.go:125-129, 169`); an empty read leaves the clock unchanged; the
loop stops after the first erroring read. -/
def lastActivitySeq (t0 : Int) : List (ReadEvent × Int) → List Int
  | [] => []
  | (ev, now) :: rest =>
    let t1 := if ev.chunk.isEmpty then t0 else now
    t1 :: (if ev.isErr then [] else lastActivitySeq t1 rest)

/-- The specification-side description of the clock values: a left scan of
"keep the old stamp on an empty read, take the current time on a nonempty
read" over the processed prefix of the run. -/
def clockStep (t : Int) (p : ReadEvent × Int) : Int :=
  if p.1.chunk.isEmpty then t else p.2

/-! ## The activity monitor tick (`src/main.go:140-162`)

```
case <-ticker.C:
    mu.Lock()
    elapsed := time.Since(lastActivity)
    mu.Unlock()
    if elapsed >= timeout {
        timedOut = true
        fmt.Fprintf(os.Stderr, ...)
        if cmd.Process != nil { cmd.Process.Kill() }
        return
    }
```
`time.Since(lastActivity)` is `now - lastActivity`. -/

/-- Effect of one ticker iteration of the activity monitor. -/
structure MonitorEffect : Type where
  timedOut : Bool
  killedChild : Bool
  stopped : Bool
deriving DecidableEq

/-- One tick of the activity monitor (`src/main.go:147-159`): computes
`elapsed = now - lastActivity`; if `elapsed >= timeout` it sets the `timedOut`
flag, emits the diagnostic notice, kills the child and stops ticking;
otherwise it changes nothing and keeps ticking. -/
def monitorTick (now lastActivity timeout : Int) : MonitorEffect :=
  if now - lastActivity ≥ timeout then ⟨true, true, true⟩ else ⟨false, false, false⟩

/-! ## Duration parsing (`src/main.go:29-34`)

```
func parseDuration(s string) (time.Duration, error) {
    if secs, err := strconv.ParseFloat(s, 64); err == nil {
        return time.Duration(secs * float64(time.Second)), nil
    }
    return time.ParseDuration(s)
}
```
`parseDuration` calls two Go standard-library collaborators,
`strconv.ParseFloat(s, 64)` and `time.ParseDuration(s)`.  Both are modelled
faithfully from their Go sources (`strconv/atof.go`, `time/format.go`), with
one systematic abstraction: IEEE-754 binary64 arithmetic is replaced by exact
integer arithmetic.  The model computes the exact mathematical value of an
accepted numeral and delivers a definite result only where the floating-point
pipeline is provably exact (value and its nanosecond count exactly
representable, conversion in `int64` range); everywhere else it answers with
an explicit "not determined by this model" marker (`DurOut.undet` for an
implementation-dependent or rounded value, `ParseOut.undetModel` where even
the error/no-error outcome would depend on unmodelled rounding, which happens
only for magnitudes below `2^-1022` and for fractional compound durations
within one unit of `2^63`). -/

/-- ASCII decimal digit test. -/
def isDigitC (c : Char) : Bool := decide ('0' ≤ c) && decide (c ≤ '9')

/-- Value of an ASCII decimal digit. -/
def digitValC (c : Char) : Nat := c.toNat - '0'.toNat

/-- ASCII lower-casing (Go's `lower`). -/
def lowerC (c : Char) : Char :=
  if decide ('A' ≤ c) && decide (c ≤ 'Z') then Char.ofNat (c.toNat + 32) else c

/-- Hexadecimal letter test (`a`-`f`, case-insensitive). -/
def isHexLetter (c : Char) : Bool := decide ('a' ≤ lowerC c) && decide (lowerC c ≤ 'f')

/-- Value of a hexadecimal digit. -/
def hexValC (c : Char) : Nat :=
  if isDigitC c then digitValC c else (lowerC c).toNat - 'a'.toNat + 10

/-- Case-insensitive comparison against a lowercase pattern. -/
def eqIgnoreCase (cs : List Char) (pat : List Char) : Bool := cs.map lowerC == pat

/-- The result of `strconv.ParseFloat(s, 64)` on an accepted string, with the
value kept exact: `finite m ex false` denotes the decimal numeral value
`m · 10^ex`, `finite m ex true` the hexadecimal-float value `m · 2^ex`
(`readFloat`'s `neg` sign is folded into `m`; a negative zero numeral gives
`m = 0`, whose duration is 0 either way).  The remaining constructors are the
special spellings accepted by `strconv`'s `special`. -/
inductive GoFloat : Type
| finite (m : Int) (ex : Int) (hex : Bool) : GoFloat
| posInf : GoFloat
| negInf : GoFloat
| nan : GoFloat
deriving DecidableEq

/-- `strconv`'s `special`, restricted to full-string matches as `ParseFloat`
requires: an optional sign followed by `inf` or `infinity` (any case), or the
unsigned spelling `nan` (any case; `special`'s `fallthrough` from the sign
case reaches only the infinity test, so a signed NaN is not accepted). -/
def parseSpecial (cs : List Char) : Option GoFloat :=
  match cs with
  | [] => none
  | c :: rest =>
    if c = '+' then
      if eqIgnoreCase rest "inf".data || eqIgnoreCase rest "infinity".data then
        some GoFloat.posInf
      else none
    else if c = '-' then
      if eqIgnoreCase rest "inf".data || eqIgnoreCase rest "infinity".data then
        some GoFloat.negInf
      else none
    else if eqIgnoreCase cs "inf".data || eqIgnoreCase cs "infinity".data then
      some GoFloat.posInf
    else if eqIgnoreCase cs "nan".data then some GoFloat.nan
    else none

/-- Accumulator of `readFloat`'s mantissa loop.  Unlike Go, which truncates
the stored mantissa after 19 (hex: 16) digits and lets the correctly-rounding
slow path recover the value, the model keeps every digit, so `m` is the exact
mantissa of the numeral (same accepted language, exact value). -/
structure MantissaState : Type where
  m : Nat
  fracDigits : Nat
  sawDot : Bool
  sawDigits : Bool
  sawSep : Bool
deriving DecidableEq

/-- `readFloat`'s mantissa loop: consumes digits of the base, at most one
`.`, and `_` separators (validated later by `underscoreOK`), stopping at the
first other character. -/
def scanMantissa (hex : Bool) : List Char → MantissaState → MantissaState × List Char
  | [], st => (st, [])
  | c :: cs, st =>
    if c = '_' then scanMantissa hex cs { st with sawSep := true }
    else if isDigitC c then
      scanMantissa hex cs
        { st with
          m := st.m * (if hex then 16 else 10) + digitValC c
          fracDigits := st.fracDigits + (if st.sawDot then 1 else 0)
          sawDigits := true }
    else if hex && isHexLetter c then
      scanMantissa hex cs
        { st with
          m := st.m * 16 + hexValC c
          fracDigits := st.fracDigits + (if st.sawDot then 1 else 0)
          sawDigits := true }
    else if c = '.' && !st.sawDot then scanMantissa hex cs { st with sawDot := true }
    else (st, c :: cs)

/-- `readFloat`'s exponent-digit loop: consumes decimal digits and `_`
separators (the caller guarantees the first character is a digit).  Go caps
the accumulated exponent at ≥ 10000; the cap is not modelled because it can
only matter for values that are far outside the representable range either
way, where classification by the exact value coincides. -/
def scanExpDigits : List Char → Nat → Bool → Nat × Bool × List Char
  | [], v, sep => (v, sep, [])
  | c :: cs, v, sep =>
    if isDigitC c then scanExpDigits cs (v * 10 + digitValC c) sep
    else if c = '_' then scanExpDigits cs v true
    else (v, sep, c :: cs)

/-- The scanning state of `strconv`'s `underscoreOK`: `^` start of number,
`0` digit or base prefix, `_` underscore, `!` anything else. -/
def underscoreOKLoop (hexDigits : Bool) : List Char → Char → Bool
  | [], saw => saw ≠ '_'
  | c :: cs, saw =>
    if isDigitC c || (hexDigits && isHexLetter c) then underscoreOKLoop hexDigits cs '0'
    else if c = '_' then
      if saw ≠ '0' then false else underscoreOKLoop hexDigits cs '_'
    else if saw = '_' then false
    else underscoreOKLoop hexDigits cs '!'

/-- `strconv`'s `underscoreOK`: underscores may appear only between digits or
between a base prefix and a digit.  Applied to the full accepted string (the
model only needs it on strings `ParseFloat` consumed entirely). -/
def underscoreOK (cs : List Char) : Bool :=
  let s1 := match cs with
    | c :: rest => if c = '-' || c = '+' then rest else cs
    | [] => cs
  match s1 with
  | c0 :: c1 :: rest =>
    if c0 = '0' && (lowerC c1 = 'b' || lowerC c1 = 'o' || lowerC c1 = 'x') then
      underscoreOKLoop (lowerC c1 = 'x') rest '0'
    else underscoreOKLoop false s1 '^'
  | _ => underscoreOKLoop false s1 '^'

/-- Packs the pieces of a successful `readFloat` into the exact value:
decimal value `m · 10^(e - fracDigits)`, hexadecimal value
`m · 2^(e - 4·fracDigits)`. -/
def mkFiniteFloat (neg hex : Bool) (st : MantissaState) (e : Int) : GoFloat :=
  GoFloat.finite (if neg then -(st.m : Int) else (st.m : Int))
    (if hex then e - 4 * (st.fracDigits : Int) else e - (st.fracDigits : Int)) hex

/-- `strconv`'s `readFloat` combined with `ParseFloat`'s requirement that the
whole string is consumed: optional sign; optional `0x` prefix (only with at
least one more character, Go's `i+2 < len(s)`); mantissa digits with at most
one dot; an exponent part (`e` optional for decimal, `p` mandatory for hex)
with optional sign and at least one leading digit; underscores validated by
`underscoreOK`; any leftover character rejects the string.  Returns the exact
value of the numeral. -/
def readFloatValue (cs : List Char) : Option GoFloat :=
  let signSplit : Bool × List Char :=
    match cs with
    | '+' :: rest => (false, rest)
    | '-' :: rest => (true, rest)
    | _ => (false, cs)
  let neg := signSplit.1
  let s1 := signSplit.2
  let hexSplit : Bool × List Char :=
    match s1 with
    | c0 :: c1 :: c2 :: rest =>
      if c0 = '0' && lowerC c1 = 'x' then (true, c2 :: rest) else (false, s1)
    | _ => (false, s1)
  let hex := hexSplit.1
  let scanned := scanMantissa hex hexSplit.2 ⟨0, 0, false, false, false⟩
  let st := scanned.1
  if !st.sawDigits then none
  else
    match scanned.2 with
    | c :: rest =>
      if lowerC c = (if hex then 'p' else 'e') then
        let esplit : Int × List Char :=
          match rest with
          | '+' :: r => (1, r)
          | '-' :: r => (-1, r)
          | _ => (1, rest)
        match esplit.2 with
        | d :: _ =>
          if isDigitC d then
            match scanExpDigits esplit.2 0 false with
            | (e, sep2, []) =>
              if (st.sawSep || sep2) && !underscoreOK cs then none
              else some (mkFiniteFloat neg hex st (esplit.1 * (e : Int)))
            | _ => none
          else none
        | [] => none
      else none
    | [] =>
      if hex then none
      else if st.sawSep && !underscoreOK cs then none
      else some (mkFiniteFloat neg hex st 0)

/-- `strconv.ParseFloat(s, 64)`'s accepted language and exact value: the
special spellings, otherwise the numeral grammar of `readFloat`. -/
def goParseFloat (cs : List Char) : Option GoFloat :=
  match parseSpecial cs with
  | some gf => some gf
  | none => readFloatValue cs

/-! ### Range classification of the exact value

`ParseFloat` returns a nil error for every accepted string except a decimal
or hexadecimal numeral whose correctly-rounded value overflows to ±Inf, for
which it reports `ErrRange` — and then `parseDuration` falls through to
`time.ParseDuration`.  With round-to-nearest-ties-even, overflow happens
exactly when the exact magnitude reaches `2^1024 - 2^970` (the midpoint above
the largest finite binary64 value `(2^53-1)·2^971`). -/

/-- Digit count of a natural number (fuel-based so it reduces in the
kernel). -/
def numDigitsAux : Nat → Nat → Nat
  | 0, _ => 0
  | fuel + 1, n => if n = 0 then 0 else numDigitsAux fuel (n / 10) + 1

/-- Digit count of a natural number (`numDigits 0 = 0`). -/
def numDigits (n : Nat) : Nat := numDigitsAux n n

/-- Bit length of a natural number (fuel-based). -/
def bitLenAux : Nat → Nat → Nat
  | 0, _ => 0
  | fuel + 1, n => if n = 0 then 0 else bitLenAux fuel (n / 2) + 1

/-- Bit length: `2^(bitLen n - 1) ≤ n < 2^(bitLen n)` for `n ≠ 0`. -/
def bitLen (n : Nat) : Nat := bitLenAux n n

/-- The binary64 overflow threshold `2^1024 - 2^970`. -/
def ovThreshold : Nat := 2 ^ 1024 - 2 ^ 970

/-- Whether `a · 10^ex ≥ 2^1024 - 2^970` for `a ≠ 0` (decimal overflow to
±Inf).  A digit-count estimate settles all but one boundary magnitude, which
is compared exactly. -/
def decOverflow (a : Nat) (ex : Int) : Bool :=
  if a = 0 then false
  else if (numDigits a : Int) + ex ≥ 310 then true
  else if (numDigits a : Int) + ex ≤ 308 then false
  else if ex ≥ 0 then decide (a * 10 ^ ex.toNat ≥ ovThreshold)
  else decide (ovThreshold * 10 ^ (-ex).toNat ≤ a)

/-- Whether `a · 2^ex ≥ 2^1024 - 2^970` for `a ≠ 0` (hexadecimal overflow). -/
def hexOverflow (a : Nat) (ex : Int) : Bool :=
  if a = 0 then false
  else if (bitLen a : Int) + ex ≥ 1025 then true
  else if (bitLen a : Int) + ex ≤ 1023 then false
  else if ex ≥ 0 then decide (a * 2 ^ ex.toNat ≥ ovThreshold)
  else decide (ovThreshold * 2 ^ (-ex).toNat ≤ a)

/-- Whether `ParseFloat` reports `ErrRange` (overflow to ±Inf) for this
value, making `parseDuration` fall through to `time.ParseDuration`. -/
def floatOverflows : GoFloat → Bool
  | GoFloat.finite m ex hex =>
    if hex then hexOverflow m.natAbs ex else decOverflow m.natAbs ex
  | _ => false

/-- The model-undetermined tiny zone: a nonzero exact value of magnitude
below `2^-1022` (the smallest normal binary64).  Down there the result
rounds to a subnormal or to zero and, for hexadecimal input, Go additionally
reports an underflow `ErrRange`; the model does not commit to an outcome in
this zone. -/
def decTinyZone (a : Nat) (ex : Int) : Bool :=
  if a = 0 then false
  else if (numDigits a : Int) + ex ≤ -308 then true
  else if (numDigits a : Int) + ex ≥ -306 then false
  else decide (a * 2 ^ 1022 < 10 ^ (-ex).toNat)

/-- Hexadecimal version of the tiny zone (`a · 2^ex < 2^-1022`, `a ≠ 0`). -/
def hexTinyZone (a : Nat) (ex : Int) : Bool :=
  if a = 0 then false else decide ((bitLen a : Int) + ex ≤ -1022)

/-- Whether the value lies in the model-undetermined tiny zone. -/
def floatTinyZone : GoFloat → Bool
  | GoFloat.finite m ex hex =>
    if hex then hexTinyZone m.natAbs ex else decTinyZone m.natAbs ex
  | _ => false

/-! ### From float to `time.Duration`

`time.Duration(secs * float64(time.Second))` multiplies by `10^9` in binary64
and truncates toward zero into a 64-bit integer.  The model delivers the
definite answer exactly when every step is provably exact: the numeral's
value is a binary64 value (`float64Representable`), its nanosecond count is
an integer that is itself a binary64 value, and that integer is within
`int64`.  Then parsing is exact (correct rounding of a representable value),
the product is exact (true product representable), and the conversion is
exact.  `±Inf` and `NaN` convert implementation-dependently (Go spec:
"the behavior is platform-specific" for non-integer-representable
conversions), hence `undet`. -/

/-- A `time.Duration` value produced by the float branch of `parseDuration`:
either a definite nanosecond count or a value the exact model does not
determine (rounded or implementation-dependent). -/
inductive DurOut : Type
| val (ns : Int) : DurOut
| undet : DurOut
deriving DecidableEq

/-- Odd part of a natural number (fuel-based; `oddPart 0 = 0`). -/
def oddPartAux : Nat → Nat → Nat
  | 0, n => n
  | fuel + 1, n => if n % 2 = 0 && n ≠ 0 then oddPartAux fuel (n / 2) else n

/-- Odd part of a natural number. -/
def oddPart (n : Nat) : Nat := oddPartAux n n

/-- 2-adic valuation of a natural number (fuel-based; 0 at 0). -/
def twoAdicValAux : Nat → Nat → Nat
  | 0, _ => 0
  | fuel + 1, n => if n % 2 = 0 && n ≠ 0 then twoAdicValAux fuel (n / 2) + 1 else 0

/-- 2-adic valuation of a natural number. -/
def twoAdicVal (n : Nat) : Nat := twoAdicValAux n n

/-- Writes the value `m·10^ex` (or `m·2^ex` for hex) in dyadic form
`c · 2^d` with `c` odd, when possible (a decimal value with a factor `5^k`
left in the denominator is not a binary64 value: `none`). -/
def dyadicOfFloat (m ex : Int) (hex : Bool) : Option (Int × Int) :=
  if m = 0 then some (0, 0)
  else if hex then
    some ((if m < 0 then -(oddPart m.natAbs : Int) else (oddPart m.natAbs : Int)),
      (twoAdicVal m.natAbs : Int) + ex)
  else if ex ≥ 0 then
    let n := m.natAbs * 10 ^ ex.toNat
    some ((if m < 0 then -(oddPart n : Int) else (oddPart n : Int)), (twoAdicVal n : Int))
  else
    let k := (-ex).toNat
    if m.natAbs % 5 ^ k = 0 then
      let n := m.natAbs / 5 ^ k
      some ((if m < 0 then -(oddPart n : Int) else (oddPart n : Int)),
        (twoAdicVal n : Int) - (k : Int))
    else none

/-- Whether the exact value `m·10^ex` (hex: `m·2^ex`) is exactly a binary64
value: dyadic `c·2^d` with `|c| < 2^53`, `d ≥ -1074`, and magnitude at most
the largest finite value `(2^53-1)·2^971`. -/
def float64Representable (m ex : Int) (hex : Bool) : Bool :=
  if m = 0 then true
  else
    match dyadicOfFloat m ex hex with
    | none => false
    | some (c, d) =>
      c.natAbs < 2 ^ 53 && decide (-1074 ≤ d) &&
        (decide (d ≤ 971) ||
          (decide (d ≤ 1023) && c.natAbs * 2 ^ (d - 971).toNat ≤ 2 ^ 53 - 1))

/-- The nanosecond count `value · 10^9` when it is an integer (`none`
otherwise). -/
def nsOfFloat (m ex : Int) (hex : Bool) : Option Int :=
  if hex then
    let t : Int := m * 1000000000
    if ex ≥ 0 then some (t * 2 ^ ex.toNat)
    else if t % ((2 : Int) ^ (-ex).toNat) = 0 then some (t / (2 : Int) ^ (-ex).toNat)
    else none
  else
    if ex + 9 ≥ 0 then some (m * 10 ^ (ex + 9).toNat)
    else if m % ((10 : Int) ^ (-(ex + 9)).toNat) = 0 then
      some (m / (10 : Int) ^ (-(ex + 9)).toNat)
    else none

/-- `time.Duration(secs * float64(time.Second))` (`src/main.go:31`) on the
exact parsed value: definite exactly when parsing, multiplication and int64
conversion are all provably exact, `undet` otherwise (including `±Inf` and
`NaN`, whose conversion Go leaves implementation-dependent). -/
def durationOfFloat : GoFloat → DurOut
  | GoFloat.finite m ex hex =>
    if m = 0 then DurOut.val 0
    else
      match nsOfFloat m ex hex with
      | some n =>
        if float64Representable m ex hex && n.natAbs < 2 ^ 63 &&
            oddPart n.natAbs < 2 ^ 53 then
          DurOut.val n
        else DurOut.undet
      | none => DurOut.undet
  | _ => DurOut.undet

/-! ### `time.ParseDuration` (Go `time/format.go`)

Grammar `[-+]?([0-9]*(\.[0-9]*)?[a-z]+)+` with the special case `[-+]?0`.
The accumulation is `uint64` arithmetic with explicit overflow checks at
`2^63`; only the fractional contribution
`uint64(float64(f) * (float64(unit) / scale))` uses floating point.  The
model tracks the integer part `d` exactly plus a `slack` bound: each
fractional term contributes between 0 and its unit (since `f < scale`), so
the true accumulated duration lies in `[d, d + slack]`.  Overflow checks are
decided definitely whenever the whole interval is on one side of the bound
and answer `undetModel` otherwise; a result with `slack ≠ 0` has a definite
error status but an only-approximately-known value, hence `undet`. -/

/-- Outcome of the embedded `parseDuration`: a duration with nil error, an
error, or an outcome the exact-arithmetic model does not determine. -/
inductive ParseOut : Type
| ok (d : DurOut) : ParseOut
| err : ParseOut
| undetModel : ParseOut
deriving DecidableEq

/-- `time`'s `leadingInt`: consume leading decimal digits into a `uint64`,
failing on overflow past `2^63` (`x > (1<<63)/10` before the multiply, then
`x > 1<<63`). -/
def leadingInt : List Char → Nat → Option (Nat × List Char)
  | [], x => some (x, [])
  | c :: cs, x =>
    if isDigitC c then
      if x > 922337203685477580 then none
      else
        let x1 := x * 10 + digitValC c
        if x1 > 9223372036854775808 then none else leadingInt cs x1
    else some (x, c :: cs)

/-- `time`'s `leadingFraction`: consume the digits after the decimal point,
freezing the accumulated value (and scale) once it would overflow; returns
the kept value and the number of digit characters consumed. -/
def leadingFraction : List Char → Nat → Bool → Nat → Nat × Nat × List Char
  | [], f, _, cnt => (f, cnt, [])
  | c :: cs, f, ovf, cnt =>
    if isDigitC c then
      if ovf then leadingFraction cs f true (cnt + 1)
      else if f > 922337203685477580 then leadingFraction cs f true (cnt + 1)
      else
        let y := f * 10 + digitValC c
        if y > 9223372036854775808 then leadingFraction cs f true (cnt + 1)
        else leadingFraction cs y false (cnt + 1)
    else (f, cnt, c :: cs)

/-- The unit characters: everything up to the next digit or `.`. -/
def spanUnit : List Char → List Char × List Char
  | [] => ([], [])
  | c :: cs =>
    if c = '.' || isDigitC c then ([], c :: cs)
    else
      let (u, r) := spanUnit cs
      (c :: u, r)

/-- `time`'s `unitMap`: nanoseconds per unit (`us` has the three spellings
`us`, `µs` U+00B5, `μs` U+03BC). -/
def unitValue (u : List Char) : Option Nat :=
  if u = "ns".data then some 1
  else if u = "us".data then some 1000
  else if u = "µs".data then some 1000
  else if u = "μs".data then some 1000
  else if u = "ms".data then some 1000000
  else if u = "s".data then some 1000000000
  else if u = "m".data then some 60000000000
  else if u = "h".data then some 3600000000000
  else none

/-- Result of the term-accumulation loop of `ParseDuration`: error,
model-undetermined, or the exact part `d` with the fractional slack bound. -/
inductive DurRes : Type
| errD : DurRes
| undetD : DurRes
| okD (d : Nat) (slack : Nat) : DurRes
deriving DecidableEq

/-- The `for s != ""` loop of `ParseDuration`: one pass per
`<number>[.<fraction>]<unit>` term.  `fuel` only bounds the recursion and is
chosen one larger than the remaining input, which every pass shortens, so the
`fuel = 0` branch is unreachable. -/
def durLoop : Nat → List Char → Nat → Nat → DurRes
  | 0, _, _, _ => DurRes.errD
  | fuel + 1, s, d, slack =>
    match s with
    | [] => DurRes.okD d slack
    | c :: _ =>
      if !(c = '.' || isDigitC c) then DurRes.errD
      else
        match leadingInt s 0 with
        | none => DurRes.errD
        | some (v0, s1) =>
          let pre := decide (s1.length < s.length)
          let fracSplit : Nat × Nat × List Char :=
            match s1 with
            | '.' :: r => leadingFraction r 0 false 0
            | _ => (0, 0, s1)
          let f := fracSplit.1
          let post := decide (0 < fracSplit.2.1)
          let s2 := fracSplit.2.2
          if !pre && !post then DurRes.errD
          else
            match spanUnit s2 with
            | ([], _) => DurRes.errD
            | (u, s3) =>
              match unitValue u with
              | none => DurRes.errD
              | some unit =>
                if v0 > 9223372036854775808 / unit then DurRes.errD
                else
                  let v1 := v0 * unit
                  if 0 < f then
                    if v1 + unit ≤ 9223372036854775808 then
                      if d + v1 > 9223372036854775808 then DurRes.errD
                      else if d + v1 + (slack + unit) > 9223372036854775808 then
                        DurRes.undetD
                      else durLoop fuel s3 (d + v1) (slack + unit)
                    else DurRes.undetD
                  else
                    if d + v1 > 9223372036854775808 then DurRes.errD
                    else if d + v1 + slack > 9223372036854775808 then DurRes.undetD
                    else durLoop fuel s3 (d + v1) slack

/-- `time.ParseDuration`: optional sign; `"0"` alone is zero; otherwise the
term loop, the final negation (`-Duration(d)`, no further check) or the
positive bound `d > 2^63 - 1` error. -/
def goTimeParseDuration (cs : List Char) : ParseOut :=
  let signSplit : Bool × List Char :=
    match cs with
    | '-' :: r => (true, r)
    | '+' :: r => (false, r)
    | _ => (false, cs)
  let neg := signSplit.1
  let s := signSplit.2
  if s = ['0'] then ParseOut.ok (DurOut.val 0)
  else if s = [] then ParseOut.err
  else
    match durLoop (s.length + 1) s 0 0 with
    | DurRes.errD => ParseOut.err
    | DurRes.undetD => ParseOut.undetModel
    | DurRes.okD d slack =>
      if neg then
        ParseOut.ok (if slack = 0 then DurOut.val (-(d : Int)) else DurOut.undet)
      else if d > 9223372036854775807 then ParseOut.err
      else if d + slack ≤ 9223372036854775807 then
        ParseOut.ok (if slack = 0 then DurOut.val (d : Int) else DurOut.undet)
      else ParseOut.undetModel

/-- `parseDuration` (`src/main.go:29-34`): try `strconv.ParseFloat` first;
on a nil error (every accepted string except a range overflow) return
`time.Duration(secs * float64(time.Second))`; otherwise fall back to
`time.ParseDuration`. -/
def parseDuration (s : String) : ParseOut :=
  match goParseFloat s.data with
  | some gf =>
    if floatTinyZone gf then ParseOut.undetModel
    else if floatOverflows gf then goTimeParseDuration s.data
    else ParseOut.ok (durationOfFloat gf)
  | none => goTimeParseDuration s.data

/-! ## `main` (`src/main.go:36-55`) -/

/-- Observable outcome of `main`:
* `usage code` — fewer than two arguments: usage text to standard error and
  `os.Exit(code)` before anything else (`src/main.go:37-41`);
* `invalidDuration code offending` — `parseDuration` failed: the message
  `Invalid duration %q: %v` naming the offending string goes to standard
  error and the process exits with `os.Exit(code)` before any child process
  is started (`src/main.go:43-48`);
* `callsRun cmdName cmdArgs timeout` — parsing succeeded and
  `run(os.Args[2], os.Args[3:], timeout)` is invoked, whose result becomes
  the process exit code (`src/main.go:50-54`);
* `modelUndet` — the duration model did not determine the parse outcome. -/
inductive MainResult : Type
| usage (exitCode : Int) : MainResult
| invalidDuration (exitCode : Int) (offending : String) : MainResult
| callsRun (cmdName : String) (cmdArgs : List String) (timeout : DurOut) : MainResult
| modelUndet : MainResult
deriving DecidableEq

/-- `main` (`src/main.go:36-55`) on the argument vector `os.Args` (program
name included). -/
def goMain (argv : List String) : MainResult :=
  match argv with
  | _prog :: dur :: cmdName :: rest =>
    match parseDuration dur with
    | ParseOut.err => MainResult.invalidDuration 1 dur
    | ParseOut.undetModel => MainResult.modelUndet
    | ParseOut.ok d => MainResult.callsRun cmdName rest d
  | _ => MainResult.usage 1

end IdleTimeout

namespace IdleTimeout

/-! ## Theorems about the run loop -/

/-- C1: If the activity monitor marked the run as timed out, `run` returns
exit code 124 for every outcome of `cmd.Wait()` — including an
`*exec.ExitError` carrying a signal-death exit status — because the
`timedOut` test at `src/main.go:181` is evaluated before any other exit-code
rule. -/
theorem timedOut_run_returns_124 :
    ∀ w : WaitResult, resolveExitCode true w = 124 := by
  intro w
  cases w <;> rfl

/-- C2: When the run was not marked timed out: an `*exec.ExitError` (child
exited normally or was signaled, numeric exit code available) makes `run`
return that exit code; any other wait failure makes it return 1; a clean wait
makes it return 0. -/
theorem not_timedOut_run_returns_child_code :
    (∀ code : Int, resolveExitCode false (WaitResult.exitError code) = code) ∧
    resolveExitCode false WaitResult.otherError = 1 ∧
    resolveExitCode false WaitResult.ok = 0 := by
  refine ⟨fun code => rfl, rfl, rfl⟩

/-- C3: The argv built by `exec.Command(cmdName, cmdArgs...)`
(`src/main.go:65`) hands the child's arguments to the execution layer as
discrete elements: the vector is exactly the command name followed by each
argument unchanged (byte-for-byte, since each element is the very same
string), with the i-th argument at position i+1; no concatenation into a
single string takes place. -/
theorem argv_discrete_elements :
    ∀ (cmdName : String) (cmdArgs : List String),
      (execCommand cmdName cmdArgs).argv = cmdName :: cmdArgs ∧
      (∀ i : Nat, (execCommand cmdName cmdArgs).argv.get? (i + 1) = cmdArgs.get? i) := by
  intro cmdName cmdArgs
  exact ⟨rfl, fun i => rfl⟩

/-- C6: On every processed read the pump first resets the activity clock and
then writes exactly the bytes read (nothing for an empty read), in read
order; it processes exactly the prefix of reads up to and including the first
one that reports an end-of-stream or I/O error, and the bytes reaching
standard output are the concatenation, in order, of the chunks of those
reads, unmodified. -/
theorem outputPump_spec :
    ∀ evs : List ReadEvent,
      outputPump evs = (takeThroughErr (·.isErr) evs).flatMap pumpStep ∧
      writtenBytes (outputPump evs) =
        ((takeThroughErr (·.isErr) evs).map (·.chunk)).flatten := by
  have hpump : ∀ evs : List ReadEvent,
      outputPump evs = (takeThroughErr (·.isErr) evs).flatMap pumpStep := by
    intro evs
    induction evs with
    | nil => rfl
    | cons ev rest ih =>
      by_cases herr : ev.isErr
      · simp [outputPump, takeThroughErr, herr, pumpStep, List.flatMap]
      · simp [outputPump, takeThroughErr, herr, pumpStep, List.flatMap_cons, ih]
  have hwritten : ∀ l : List ReadEvent,
      writtenBytes (l.flatMap pumpStep) = (l.map (·.chunk)).flatten := by
    intro l
    induction l with
    | nil => rfl
    | cons ev rest ih =>
      by_cases hch : ev.chunk.isEmpty
      · have : ev.chunk = [] := by simpa using hch
        simp [List.flatMap_cons, pumpStep, hch, this, ih]
      · simp [List.flatMap_cons, pumpStep, hch, writtenBytes, ih]
  intro evs
  exact ⟨hpump evs, by rw [hpump evs, hwritten]⟩

/-- Helper: a chain with its head lowered is still a chain. -/
theorem chain_le_of_head_le {a b : Int} {l : List Int} (hab : a ≤ b)
    (h : List.Chain (· ≤ ·) b l) : List.Chain (· ≤ ·) a l := by
  cases h with
  | nil => exact List.Chain.nil
  | cons hbc hrest => exact List.Chain.cons (le_trans hab hbc) hrest

/-- Helper: a left scan starts with its initial accumulator. -/
theorem cons_tail_scanl {α β : Type} (f : α → β → α) (b : α) (l : List β) :
    b :: (List.scanl f b l).tail = List.scanl f b l := by
  cases l <;> simp [List.scanl]

/-- C7: If the wall clock is monotone along the run (the initial reading `t0`
at `src/main.go:123` followed by the `time.Now()` readings of the loop
iterations is non-decreasing, which Go's monotonic clock guarantees), then the
activity-clock value is monotonically non-decreasing across the whole run,
and after its initialisation it is updated exactly at the nonempty reads of
the processed prefix, each time to that read's current time — the left scan of
`clockStep`; no other operation writes it. -/
theorem activityClock_monotone_and_updates :
    ∀ (t0 : Int) (evs : List (ReadEvent × Int)),
      List.Chain (· ≤ ·) t0 (evs.map Prod.snd) →
      List.Chain (· ≤ ·) t0 (lastActivitySeq t0 evs) ∧
      lastActivitySeq t0 evs =
        (List.scanl clockStep t0 (takeThroughErr (fun p => p.1.isErr) evs)).tail := by
  have hscan : ∀ (t0 : Int) (evs : List (ReadEvent × Int)),
      lastActivitySeq t0 evs =
        (List.scanl clockStep t0 (takeThroughErr (fun p => p.1.isErr) evs)).tail := by
    intro t0 evs
    induction evs generalizing t0 with
    | nil => rfl
    | cons p rest ih =>
      obtain ⟨ev, now⟩ := p
      by_cases herr : ev.isErr = true
      · by_cases hch : ev.chunk.isEmpty = true <;>
          simp [lastActivitySeq, takeThroughErr, herr, hch, clockStep, List.scanl]
      · by_cases hch : ev.chunk.isEmpty = true <;>
          simp [lastActivitySeq, takeThroughErr, herr, hch, clockStep, List.scanl, ih,
            cons_tail_scanl]
  have hmono : ∀ (t0 : Int) (evs : List (ReadEvent × Int)),
      List.Chain (· ≤ ·) t0 (evs.map Prod.snd) →
      List.Chain (· ≤ ·) t0 (lastActivitySeq t0 evs) := by
    intro t0 evs
    induction evs generalizing t0 with
    | nil => intro _; exact List.Chain.nil
    | cons p rest ih =>
      obtain ⟨ev, now⟩ := p
      intro h
      rw [List.map_cons] at h
      have h0 : t0 ≤ now := by cases h with | cons h0 _ => exact h0
      have hrest : List.Chain (· ≤ ·) now (rest.map Prod.snd) := by
        cases h with | cons _ hr => exact hr
      by_cases hch : ev.chunk.isEmpty = true
      · -- empty read: clock stays at t0
        by_cases herr : ev.isErr = true
        · have hseq : lastActivitySeq t0 ((ev, now) :: rest) = [t0] := by
            simp [lastActivitySeq, hch, herr]
          rw [hseq]
          exact List.Chain.cons le_rfl List.Chain.nil
        · have hseq : lastActivitySeq t0 ((ev, now) :: rest) =
              t0 :: lastActivitySeq t0 rest := by
            simp [lastActivitySeq, hch, herr]
          rw [hseq]
          exact List.Chain.cons le_rfl (ih t0 (chain_le_of_head_le h0 hrest))
      · -- nonempty read: clock becomes now
        by_cases herr : ev.isErr = true
        · have hseq : lastActivitySeq t0 ((ev, now) :: rest) = [now] := by
            simp [lastActivitySeq, hch, herr]
          rw [hseq]
          exact List.Chain.cons h0 List.Chain.nil
        · have hseq : lastActivitySeq t0 ((ev, now) :: rest) =
              now :: lastActivitySeq now rest := by
            simp [lastActivitySeq, hch, herr]
          rw [hseq]
          exact List.Chain.cons h0 (ih now hrest)
  intro t0 evs h
  exact ⟨hmono t0 evs h, hscan t0 evs⟩

/-- Witness for `activityClock_monotone_and_updates`: a concrete three-read
run with monotone timestamps. -/
theorem activityClock_monotone_and_updates_witness :
    List.Chain (· ≤ ·) (0 : Int)
      (List.map Prod.snd
        [((⟨[7], false⟩ : ReadEvent), (5 : Int)), (⟨[], false⟩, 6), (⟨[9], true⟩, 8)]) ∧
    (List.Chain (· ≤ ·) (0 : Int)
        (lastActivitySeq 0 [(⟨[7], false⟩, 5), (⟨[], false⟩, 6), (⟨[9], true⟩, 8)]) ∧
      lastActivitySeq 0 [(⟨[7], false⟩, 5), (⟨[], false⟩, 6), (⟨[9], true⟩, 8)] =
        (List.scanl clockStep 0
          (takeThroughErr (fun p => p.1.isErr)
            [(⟨[7], false⟩, 5), (⟨[], false⟩, 6), (⟨[9], true⟩, 8)])).tail) := by
  have hyp : List.Chain (· ≤ ·) (0 : Int)
      (List.map Prod.snd
        [((⟨[7], false⟩ : ReadEvent), (5 : Int)), (⟨[], false⟩, 6), (⟨[9], true⟩, 8)]) := by
    simp only [List.map_cons, List.map_nil]
    exact List.Chain.cons (by norm_num)
      (List.Chain.cons (by norm_num) (List.Chain.cons (by norm_num) List.Chain.nil))
  exact ⟨hyp, activityClock_monotone_and_updates 0
    [(⟨[7], false⟩, 5), (⟨[], false⟩, 6), (⟨[9], true⟩, 8)] hyp⟩

/-! ## Theorems about duration parsing and `main` -/

/-- C4 counterexample: the string `"0"` denotes a zero (hence non-positive)
duration, yet it is not rejected: `parseDuration` accepts it without error
and `main` invokes `run` with timeout 0 nanoseconds, so the claim that a
zero-or-negative duration string is caught as a user error before the
Supervisor (`run`) starts is false. -/
theorem zero_duration_reaches_run :
    goMain ["idle-timeout", "0", "true"] =
      MainResult.callsRun "true" [] (DurOut.val 0) := by
  decide

/-- C4 (amended): non-positive duration strings are accepted, not rejected:
`parseDuration` returns them without error and `main` hands the non-positive
timeout to `run` — `"0"` yields 0 ns and `"-5"` yields −5 s; no positivity
check exists before `run` is invoked. -/
theorem nonpositive_durations_accepted :
    goMain ["idle-timeout", "0", "sh"] = MainResult.callsRun "sh" [] (DurOut.val 0) ∧
    goMain ["idle-timeout", "-5", "sh"] =
      MainResult.callsRun "sh" [] (DurOut.val (-5000000000)) := by
  exact ⟨by decide, by decide⟩

/-- C5: the string `"0"` is accepted and `run` is invoked with timeout 0
rather than the value being rejected; and with timeout 0 every monitor tick
— in particular the first — finds `elapsed = now - lastActivity ≥ 0 =
timeout` (the wall clock never lags the stored activity time), so the run is
marked timed out and the child is killed immediately after the first tick. -/
theorem zero_timeout_first_tick_kills :
    goMain ["idle-timeout", "0", "sleep"] =
      MainResult.callsRun "sleep" [] (DurOut.val 0) ∧
    ∀ now lastActivity : Int, lastActivity ≤ now →
      monitorTick now lastActivity 0 = ⟨true, true, true⟩ := by
  refine ⟨by decide, fun now lastActivity h => ?_⟩
  simp [monitorTick, sub_nonneg.mpr h]

/-- Witness for `zero_timeout_first_tick_kills`: the tick at time 5 with
last activity at time 3 and timeout 0 fires. -/
theorem zero_timeout_first_tick_kills_witness :
    (3 : Int) ≤ 5 ∧ monitorTick 5 3 0 = ⟨true, true, true⟩ :=
  ⟨by norm_num, zero_timeout_first_tick_kills.2 5 3 (by norm_num)⟩

/-- C8: the plain-number grammar is tried first and `"30"` parses to exactly
30 seconds (30·10⁹ ns), `"2.5"` to exactly 2.5 seconds (2.5·10⁹ ns), both
without error; neither string would be accepted by the compound grammar of
`time.ParseDuration` (missing unit), so both results come from the
plain-number branch. -/
theorem plain_number_seconds :
    parseDuration "30" = ParseOut.ok (DurOut.val 30000000000) ∧
    parseDuration "2.5" = ParseOut.ok (DurOut.val 2500000000) ∧
    goTimeParseDuration "30".data = ParseOut.err ∧
    goTimeParseDuration "2.5".data = ParseOut.err := by
  refine ⟨by decide, by decide, by decide, by decide⟩

/-- C9: the compound string `"1h30m"` parses to exactly 1 hour 30 minutes
(5400·10⁹ ns); for `"abc"` and `"-"`, which match neither grammar, parsing
fails and `main` takes the invalid-duration path: the diagnostic naming the
offending string goes to standard error and the process exits with code 1
before any child process is started (`MainResult.invalidDuration`,
`src/main.go:43-48`). -/
theorem compound_duration_and_invalid_strings :
    parseDuration "1h30m" = ParseOut.ok (DurOut.val 5400000000000) ∧
    goMain ["idle-timeout", "abc", "cmd"] = MainResult.invalidDuration 1 "abc" ∧
    goMain ["idle-timeout", "-", "cmd"] = MainResult.invalidDuration 1 "-" := by
  refine ⟨by decide, by decide, by decide⟩

/-- C10 counterexample: `strconv.ParseFloat` accepts `"1e300"` with a nil
error (10³⁰⁰ is inside the binary64 range), so `parseDuration` returns its
float branch without error; the corresponding duration in seconds would be
10³⁰⁰ s = 10³⁰⁹ ns, but every `time.Duration` is an `int64` of at most
2⁶³−1 < 10³⁰⁹ nanoseconds, so `parseDuration` cannot return the
corresponding duration there (the stored value is the implementation-defined
result of an out-of-range float-to-int conversion; the model answers
`undet`), refuting the claim that every `ParseFloat`-accepted string yields
the corresponding duration in seconds. -/
theorem accepted_float_without_corresponding_duration :
    goParseFloat "1e300".data = some (GoFloat.finite 1 300 false) ∧
    nsOfFloat 1 300 false = some (10 ^ 309) ∧
    parseDuration "1e300" = ParseOut.ok DurOut.undet ∧
    (9223372036854775807 : Int) < 10 ^ 309 := by
  refine ⟨by decide, by decide, by decide, by decide⟩

/-- C10 (amended): the plain-number grammar is exactly what Go float parsing
accepts, wider than pure decimals: every string `strconv.ParseFloat` accepts
with a nil error (i.e. outside the model's tiny zone and not a range
overflow) makes `parseDuration` return from the float branch with no error;
scientific notation `"1e2"` gives exactly 100 s and the signed number
`"-5"` exactly −5 s; but the non-finite spellings `"inf"` and `"NaN"`,
though accepted without error, denote no real number of seconds, and their
stored `int64` is the implementation-defined result of converting a
non-finite float, not a corresponding duration (likewise for finite values
whose nanosecond count leaves the `int64` range). -/
theorem parseFloat_branch_accepted :
    (∀ (s : String) (gf : GoFloat), goParseFloat s.data = some gf →
      floatTinyZone gf = false → floatOverflows gf = false →
      parseDuration s = ParseOut.ok (durationOfFloat gf)) ∧
    parseDuration "1e2" = ParseOut.ok (DurOut.val 100000000000) ∧
    parseDuration "-5" = ParseOut.ok (DurOut.val (-5000000000)) ∧
    parseDuration "inf" = ParseOut.ok DurOut.undet ∧
    parseDuration "NaN" = ParseOut.ok DurOut.undet := by
  refine ⟨fun s gf h1 h2 h3 => ?_, by decide, by decide, by decide, by decide⟩
  simp [parseDuration, h1, h2, h3]

/-- Witness for `parseFloat_branch_accepted`: the accepted string `"1e2"`
with its parsed value, discharging each hypothesis concretely. -/
theorem parseFloat_branch_accepted_witness :
    goParseFloat "1e2".data = some (GoFloat.finite 1 2 false) ∧
    floatTinyZone (GoFloat.finite 1 2 false) = false ∧
    floatOverflows (GoFloat.finite 1 2 false) = false ∧
    parseDuration "1e2" = ParseOut.ok (durationOfFloat (GoFloat.finite 1 2 false)) :=
  ⟨by decide, by decide, by decide,
    parseFloat_branch_accepted.1 "1e2" (GoFloat.finite 1 2 false)
      (by decide) (by decide) (by decide)⟩

end IdleTimeout
